import Mathlib

/-!
# Verification of the payments engine (src/main.rs)

Shallow embedding of the transaction processor in `src/main.rs`.  Amounts
(`f64` in the source, used only with `+`, `-` and comparison against `0.0`)
are modelled as exact rationals; `u16`/`u32` identifiers are modelled as
naturals; the `HashMap`s of the `Database` are modelled as total functions
(`HashMap<u32, Transaction>` as `ℕ → Option Transaction`, and
`HashMap<u16, Client>` with its lazy `entry(..).or_insert(default)`
initialisation as a total function `ℕ → Client` into client states, absent
entries reading as the default client).  The `HashSet<u32>` of disputed
transaction ids is a `Finset ℕ`.  Diagnostics (`eprintln!`) are I/O only and
carry no state, so they are dropped; the `Result<()>` return value of
`handle_transaction` is kept as an `Except String` layer.
-/

set_option autoImplicit false

/-- `enum TransactionType` from src/main.rs. -/
inductive TransactionType where
  | Deposit
  | Withdrawal
  | Dispute
  | Resolve
  | ChargeBack
deriving DecidableEq

/-- `struct Transaction` from src/main.rs. -/
structure Transaction where
  transaction_type : TransactionType
  client_id : ℕ
  txn_id : ℕ
  amount : Option ℚ
deriving DecidableEq

/-- `struct Client` from src/main.rs. -/
structure Client where
  available : ℚ
  held : ℚ
  locked : Bool
  disputed : Finset ℕ
deriving DecidableEq

/-- `Client::default()`: zero balances, unlocked, empty dispute set. -/
def Client.default : Client := ⟨0, 0, false, ∅⟩

/-- `total` column printed by `main`: `available + held`. -/
def Client.total (cl : Client) : ℚ := cl.available + cl.held

/-- `struct Database` from src/main.rs, with both `HashMap`s as total
functions (see the module docstring). -/
structure Database where
  transactions : ℕ → Option Transaction
  clients : ℕ → Client

/-- `Database::default()`: no stored transactions, every client reads as
`Client::default()` (lazy `entry(..).or_insert` initialisation). -/
def Database.empty : Database := ⟨fun _ => none, fun _ => Client.default⟩

/-- The `match` body of `handle_transaction`, acting on the transaction's
footprint: the client state under `txn.client_id` and the stored transaction
slot under `txn.txn_id` (the only parts of the database the `match` in the
source reads or writes).  Returns the updated client state and the updated
stored-transaction slot.  The rows mirror the source `match` arms in order,
including the nested pattern
`Some(Transaction { client_id, amount: Some(amount), txn_id, .. })`
of the dispute/resolve/chargeback arms and the final `_ => eprintln!(..)`
fall-through. -/
def applyUnlocked (client : Client) (stored : Option Transaction)
    (txn : Transaction) : Client × Option Transaction :=
  match txn.transaction_type, stored, txn.amount with
  | .Deposit, _, some amount =>
      ({ client with available := client.available + amount }, some txn)
  | .Withdrawal, _, some amount =>
      (if client.available - amount < 0 then
        client
      else
        { client with available := client.available - amount }, some txn)
  | .Dispute, some ⟨_, scid, stid, some amount⟩, _ =>
      if scid ≠ txn.client_id then
        (client, stored)
      else
        ({ client with
            held := client.held + amount,
            available := client.available - amount,
            disputed := insert stid client.disputed }, stored)
  | .Resolve, some ⟨_, scid, stid, some amount⟩, _ =>
      if scid ≠ txn.client_id then
        (client, stored)
      else if stid ∈ client.disputed then
        ({ client with
            available := client.available + amount,
            held := client.held - amount }, stored)
      else
        (client, stored)
  | .ChargeBack, some ⟨_, scid, stid, some amount⟩, _ =>
      if scid ≠ txn.client_id then
        (client, stored)
      else if stid ∈ client.disputed then
        ({ client with
            held := client.held - amount,
            locked := true }, stored)
      else
        (client, stored)
  | _, _, _ => (client, stored)

/-- `fn handle_transaction(db: &mut Database, txn: Transaction) -> Result<()>`
from src/main.rs.  The locked check short-circuits before the `match`; every
control path of the source ends in `Ok(())`, here returning the updated
database. -/
def handle_transaction (db : Database) (txn : Transaction) :
    Except String Database :=
  let client := db.clients txn.client_id
  if client.locked then
    .ok db
  else
    let res := applyUnlocked client (db.transactions txn.txn_id) txn
    .ok { transactions := fun t => if t = txn.txn_id then res.2
                                   else db.transactions t,
          clients := fun c => if c = txn.client_id then res.1
                              else db.clients c }

/-- The database after `handle_transaction` (which never returns an error). -/
def step (db : Database) (txn : Transaction) : Database :=
  match handle_transaction db txn with
  | .ok db' => db'
  | .error _ => db

/-- `fn run_engine` from src/main.rs: fold `handle_transaction` over the feed
in order, propagating any error with `?`. -/
def run_engine : Database → List Transaction → Except String Database
  | db, [] => .ok db
  | db, txn :: rest =>
    match handle_transaction db txn with
    | .ok db' => run_engine db' rest
    | .error e => .error e

/-- Pure view of `run_engine`: the final database after folding the feed. -/
def processFeed (db : Database) (feed : List Transaction) : Database :=
  List.foldl step db feed

/-! ## Basic lemmas about the processor -/

/-- Both control paths of `handle_transaction` end in `Ok(())`. -/
lemma handle_transaction_ne_error (db : Database) (txn : Transaction)
    (e : String) : handle_transaction db txn ≠ .error e := by
  unfold handle_transaction
  dsimp only
  split <;> simp

/-- `handle_transaction` succeeds and produces `step db txn`. -/
lemma handle_transaction_ok (db : Database) (txn : Transaction) :
    handle_transaction db txn = .ok (step db txn) := by
  unfold step
  cases h : handle_transaction db txn with
  | ok db' => rfl
  | error e => exact absurd h (handle_transaction_ne_error db txn e)

lemma Database.ext_fun {d₁ d₂ : Database}
    (ht : ∀ t, d₁.transactions t = d₂.transactions t)
    (hc : ∀ c, d₁.clients c = d₂.clients c) : d₁ = d₂ := by
  cases d₁; cases d₂
  simp only [Database.mk.injEq]
  exact ⟨funext ht, funext hc⟩

lemma step_locked (db : Database) (txn : Transaction)
    (h : (db.clients txn.client_id).locked = true) : step db txn = db := by
  simp [step, handle_transaction, h]

lemma step_unlocked (db : Database) (txn : Transaction)
    (h : (db.clients txn.client_id).locked = false) :
    step db txn =
      { transactions := fun t => if t = txn.txn_id then
            (applyUnlocked (db.clients txn.client_id)
              (db.transactions txn.txn_id) txn).2
          else db.transactions t,
        clients := fun c => if c = txn.client_id then
            (applyUnlocked (db.clients txn.client_id)
              (db.transactions txn.txn_id) txn).1
          else db.clients c } := by
  simp [step, handle_transaction, h]

/-- Uniform footprint view of one step: the new client slot and
stored-transaction slot, as a function of the old ones only. -/
def stepRes (db : Database) (txn : Transaction) : Client × Option Transaction :=
  if (db.clients txn.client_id).locked then
    (db.clients txn.client_id, db.transactions txn.txn_id)
  else
    applyUnlocked (db.clients txn.client_id) (db.transactions txn.txn_id) txn

lemma step_eq (db : Database) (txn : Transaction) :
    step db txn =
      { transactions := fun t => if t = txn.txn_id then (stepRes db txn).2
          else db.transactions t,
        clients := fun c => if c = txn.client_id then (stepRes db txn).1
          else db.clients c } := by
  by_cases h : (db.clients txn.client_id).locked = true
  · rw [step_locked db txn h]
    unfold stepRes
    rw [if_pos h]
    refine Database.ext_fun (fun t => ?_) (fun c => ?_) <;>
      · dsimp only
        split <;> simp_all
  · rw [step_unlocked db txn (by simpa using h)]
    unfold stepRes
    rw [if_neg h]

lemma step_clients_ne (db : Database) (txn : Transaction) {c : ℕ}
    (h : c ≠ txn.client_id) : (step db txn).clients c = db.clients c := by
  rw [step_eq]; simp [h]

lemma step_transactions_ne (db : Database) (txn : Transaction) {t : ℕ}
    (h : t ≠ txn.txn_id) : (step db txn).transactions t = db.transactions t := by
  rw [step_eq]; simp [h]

lemma step_clients_self (db : Database) (txn : Transaction) :
    (step db txn).clients txn.client_id = (stepRes db txn).1 := by
  rw [step_eq]; simp

lemma step_transactions_self (db : Database) (txn : Transaction) :
    (step db txn).transactions txn.txn_id = (stepRes db txn).2 := by
  rw [step_eq]; simp

/-- A step reads the database only at its own client and transaction slot. -/
lemma stepRes_congr (db₁ db₂ : Database) (txn : Transaction)
    (h₁ : db₁.clients txn.client_id = db₂.clients txn.client_id)
    (h₂ : db₁.transactions txn.txn_id = db₂.transactions txn.txn_id) :
    stepRes db₁ txn = stepRes db₂ txn := by
  unfold stepRes
  rw [h₁, h₂]

/-- Steps on disjoint footprints (different client, different txn id)
commute. -/
lemma step_comm (db : Database) (a b : Transaction)
    (hc : a.client_id ≠ b.client_id) (ht : a.txn_id ≠ b.txn_id) :
    step (step db a) b = step (step db b) a := by
  have hra : stepRes (step db b) a = stepRes db a :=
    stepRes_congr _ _ a (step_clients_ne db b hc) (step_transactions_ne db b ht)
  have hrb : stepRes (step db a) b = stepRes db b :=
    stepRes_congr _ _ b (step_clients_ne db a (Ne.symm hc))
      (step_transactions_ne db a (Ne.symm ht))
  refine Database.ext_fun (fun t => ?_) (fun c => ?_)
  · by_cases h1 : t = b.txn_id
    · subst h1
      rw [step_transactions_self, hrb,
        step_transactions_ne _ a (Ne.symm ht), step_transactions_self]
    · by_cases h2 : t = a.txn_id
      · subst h2
        rw [step_transactions_ne _ b h1, step_transactions_self,
          step_transactions_self, hra]
      · rw [step_transactions_ne _ b h1, step_transactions_ne _ a h2,
          step_transactions_ne _ a h2, step_transactions_ne _ b h1]
  · by_cases h1 : c = b.client_id
    · subst h1
      rw [step_clients_self, hrb, step_clients_ne _ a (Ne.symm hc),
        step_clients_self]
    · by_cases h2 : c = a.client_id
      · subst h2
        rw [step_clients_ne _ b h1, step_clients_self, step_clients_self, hra]
      · rw [step_clients_ne _ b h1, step_clients_ne _ a h2,
          step_clients_ne _ a h2, step_clients_ne _ b h1]

/-- If a step leaves its own footprint unchanged, it leaves the whole
database unchanged. -/
lemma step_noop (db : Database) (txn : Transaction)
    (h : (db.clients txn.client_id).locked = false)
    (happ : applyUnlocked (db.clients txn.client_id)
        (db.transactions txn.txn_id) txn
        = (db.clients txn.client_id, db.transactions txn.txn_id)) :
    step db txn = db := by
  rw [step_unlocked db txn h, happ]
  refine (Database.ext_fun (fun t => ?_) (fun c => ?_)).symm <;>
    · dsimp only
      split <;> simp_all

/-! ## Equations for the individual `match` arms -/

lemma applyUnlocked_deposit (cl : Client) (st : Option Transaction)
    (txn : Transaction) (a : ℚ) (ht : txn.transaction_type = .Deposit)
    (ha : txn.amount = some a) :
    applyUnlocked cl st txn =
      ({ cl with available := cl.available + a }, some txn) := by
  obtain ⟨tt, cid, tid, amt⟩ := txn
  cases ht
  cases ha
  rfl

lemma applyUnlocked_withdrawal (cl : Client) (st : Option Transaction)
    (txn : Transaction) (a : ℚ) (ht : txn.transaction_type = .Withdrawal)
    (ha : txn.amount = some a) :
    applyUnlocked cl st txn =
      (if cl.available - a < 0 then cl
       else { cl with available := cl.available - a }, some txn) := by
  obtain ⟨tt, cid, tid, amt⟩ := txn
  cases ht
  cases ha
  rfl

lemma applyUnlocked_deposit_noamount (cl : Client) (st : Option Transaction)
    (txn : Transaction) (ht : txn.transaction_type = .Deposit)
    (ha : txn.amount = none) : applyUnlocked cl st txn = (cl, st) := by
  obtain ⟨tt, cid, tid, amt⟩ := txn
  cases ht
  cases ha
  rfl

lemma applyUnlocked_withdrawal_noamount (cl : Client) (st : Option Transaction)
    (txn : Transaction) (ht : txn.transaction_type = .Withdrawal)
    (ha : txn.amount = none) : applyUnlocked cl st txn = (cl, st) := by
  obtain ⟨tt, cid, tid, amt⟩ := txn
  cases ht
  cases ha
  rfl

/-- A transaction type of the dispute family (one that references a stored
transaction rather than introducing one). -/
def isReferencing (tt : TransactionType) : Bool :=
  match tt with
  | .Dispute | .Resolve | .ChargeBack => true
  | _ => false

/-- A transaction type that records a stored transaction. -/
def isStoring (tt : TransactionType) : Bool :=
  match tt with
  | .Deposit | .Withdrawal => true
  | _ => false

lemma applyUnlocked_ref_notfound (cl : Client) (txn : Transaction)
    (ht : isReferencing txn.transaction_type = true) :
    applyUnlocked cl none txn = (cl, none) := by
  obtain ⟨tt, cid, tid, amt⟩ := txn
  cases tt <;> first | rfl | exact absurd ht (by simp [isReferencing])

lemma applyUnlocked_ref_noamount (cl : Client) (txn : Transaction)
    (s : Transaction) (ht : isReferencing txn.transaction_type = true)
    (hs : s.amount = none) :
    applyUnlocked cl (some s) txn = (cl, some s) := by
  obtain ⟨tt, cid, tid, amt⟩ := txn
  obtain ⟨stt, scid, stid, samt⟩ := s
  cases hs
  cases tt <;> first | rfl | exact absurd ht (by simp [isReferencing])

lemma applyUnlocked_ref_mismatch (cl : Client) (txn : Transaction)
    (s : Transaction) (a : ℚ) (ht : isReferencing txn.transaction_type = true)
    (hs : s.amount = some a) (hne : s.client_id ≠ txn.client_id) :
    applyUnlocked cl (some s) txn = (cl, some s) := by
  obtain ⟨tt, cid, tid, amt⟩ := txn
  obtain ⟨stt, scid, stid, samt⟩ := s
  cases hs
  simp only [Transaction.client_id] at hne
  cases tt with
  | Deposit => exact absurd ht (by simp [isReferencing])
  | Withdrawal => exact absurd ht (by simp [isReferencing])
  | Dispute => simp [applyUnlocked, hne]
  | Resolve => simp [applyUnlocked, hne]
  | ChargeBack => simp [applyUnlocked, hne]

lemma applyUnlocked_dispute_accept (cl : Client) (txn : Transaction)
    (s : Transaction) (a : ℚ) (ht : txn.transaction_type = .Dispute)
    (hs : s.amount = some a) (heq : s.client_id = txn.client_id) :
    applyUnlocked cl (some s) txn =
      ({ cl with
          available := cl.available - a,
          held := cl.held + a,
          disputed := insert s.txn_id cl.disputed }, some s) := by
  obtain ⟨tt, cid, tid, amt⟩ := txn
  obtain ⟨stt, scid, stid, samt⟩ := s
  cases ht
  cases hs
  simp only [Transaction.client_id] at heq
  simp [applyUnlocked, heq]

lemma applyUnlocked_resolve_disputed (cl : Client) (txn : Transaction)
    (s : Transaction) (a : ℚ) (ht : txn.transaction_type = .Resolve)
    (hs : s.amount = some a) (heq : s.client_id = txn.client_id)
    (hd : s.txn_id ∈ cl.disputed) :
    applyUnlocked cl (some s) txn =
      ({ cl with
          available := cl.available + a,
          held := cl.held - a }, some s) := by
  obtain ⟨tt, cid, tid, amt⟩ := txn
  obtain ⟨stt, scid, stid, samt⟩ := s
  cases ht
  cases hs
  simp only [Transaction.client_id] at heq
  simp only [Transaction.txn_id] at hd
  simp [applyUnlocked, heq, hd]

lemma applyUnlocked_resolve_not_disputed (cl : Client) (txn : Transaction)
    (s : Transaction) (a : ℚ) (ht : txn.transaction_type = .Resolve)
    (hs : s.amount = some a) (heq : s.client_id = txn.client_id)
    (hd : s.txn_id ∉ cl.disputed) :
    applyUnlocked cl (some s) txn = (cl, some s) := by
  obtain ⟨tt, cid, tid, amt⟩ := txn
  obtain ⟨stt, scid, stid, samt⟩ := s
  cases ht
  cases hs
  simp only [Transaction.client_id] at heq
  simp only [Transaction.txn_id] at hd
  simp [applyUnlocked, heq, hd]

lemma applyUnlocked_chargeback_disputed (cl : Client) (txn : Transaction)
    (s : Transaction) (a : ℚ) (ht : txn.transaction_type = .ChargeBack)
    (hs : s.amount = some a) (heq : s.client_id = txn.client_id)
    (hd : s.txn_id ∈ cl.disputed) :
    applyUnlocked cl (some s) txn =
      ({ cl with
          held := cl.held - a,
          locked := true }, some s) := by
  obtain ⟨tt, cid, tid, amt⟩ := txn
  obtain ⟨stt, scid, stid, samt⟩ := s
  cases ht
  cases hs
  simp only [Transaction.client_id] at heq
  simp only [Transaction.txn_id] at hd
  simp [applyUnlocked, heq, hd]

lemma applyUnlocked_chargeback_not_disputed (cl : Client) (txn : Transaction)
    (s : Transaction) (a : ℚ) (ht : txn.transaction_type = .ChargeBack)
    (hs : s.amount = some a) (heq : s.client_id = txn.client_id)
    (hd : s.txn_id ∉ cl.disputed) :
    applyUnlocked cl (some s) txn = (cl, some s) := by
  obtain ⟨tt, cid, tid, amt⟩ := txn
  obtain ⟨stt, scid, stid, samt⟩ := s
  cases ht
  cases hs
  simp only [Transaction.client_id] at heq
  simp only [Transaction.txn_id] at hd
  simp [applyUnlocked, heq, hd]

/-! ## Order independence machinery -/

/-- Two transactions interfere when they touch the same client or the same
transaction id (the read/write footprint of `handle_transaction`). -/
def Dep (a b : Transaction) : Prop :=
  a.client_id = b.client_id ∨ a.txn_id = b.txn_id

instance (a b : Transaction) : Decidable (Dep a b) := by
  unfold Dep
  infer_instance

lemma Dep.symm {a b : Transaction} (h : Dep a b) : Dep b a := by
  rcases h with h | h
  · exact Or.inl h.symm
  · exact Or.inr h.symm

lemma step_comm_of_not_dep (db : Database) {a b : Transaction}
    (h : ¬ Dep a b) : step (step db a) b = step (step db b) a := by
  simp only [Dep, not_or] at h
  exact step_comm db a b h.1 h.2

/-- Pulling a transaction that does not interfere with anything before it to
the front of a fold. -/
lemma foldl_pull (b : Transaction) :
    ∀ (l₁ : List Transaction) (db : Database) (l₂ : List Transaction),
      (∀ x ∈ l₁, ¬ Dep x b) →
      List.foldl step db (l₁ ++ b :: l₂) =
        List.foldl step (step db b) (l₁ ++ l₂)
  | [], _, _, _ => rfl
  | x :: l₁, db, l₂, h => by
    show List.foldl step (step db x) (l₁ ++ b :: l₂) =
      List.foldl step (step (step db b) x) (l₁ ++ l₂)
    rw [foldl_pull b l₁ (step db x) l₂
          (fun y hy => h y (List.mem_cons_of_mem x hy)),
      step_comm_of_not_dep db (h x (List.mem_cons_self x l₁))]

/-- Tagged transactions; interfering entries must keep increasing tags. -/
def TagOrd (a b : ℕ × Transaction) : Prop := Dep a.2 b.2 → a.1 < b.1

instance (a b : ℕ × Transaction) : Decidable (TagOrd a b) := by
  unfold TagOrd
  infer_instance

/-- Folding the processor over two listings of the same tagged multiset of
transactions gives the same database, provided both listings keep interfering
entries in tag order. -/
lemma foldl_tagged :
    ∀ (l m : List (ℕ × Transaction)), l.Perm m →
      l.Pairwise TagOrd → m.Pairwise TagOrd →
      ∀ db : Database,
        List.foldl step db (l.map Prod.snd) =
          List.foldl step db (m.map Prod.snd)
  | [], m, hp, _, _, db => by
    rw [hp.symm.eq_nil]
  | (k, b) :: l₁, m, hp, hl, hm, db => by
    obtain ⟨m₁, m₂, rfl⟩ :=
      List.append_of_mem (hp.mem_iff.mp (List.mem_cons_self _ _))
    have hindep : ∀ x ∈ m₁, ¬ Dep x.2 b := by
      intro x hx hdep
      have h1 : x.1 < k :=
        (List.pairwise_append.mp hm).2.2 x hx (k, b)
          (List.mem_cons_self _ _) hdep
      have hxl : x ∈ (k, b) :: l₁ :=
        hp.symm.subset (List.mem_append.mpr (Or.inl hx))
      rcases List.mem_cons.mp hxl with hx1 | hx2
      · rw [hx1] at h1
        exact lt_irrefl k h1
      · exact lt_asymm h1 ((List.pairwise_cons.mp hl).1 x hx2 hdep.symm)
    have hperm : l₁.Perm (m₁ ++ m₂) :=
      ((hp.trans List.perm_middle).cons_inv)
    have hl₁ : l₁.Pairwise TagOrd := (List.pairwise_cons.mp hl).2
    have hm₁₂ : (m₁ ++ m₂).Pairwise TagOrd :=
      List.Pairwise.sublist (((List.Sublist.refl m₂).cons _).append_left m₁) hm
    calc List.foldl step db (((k, b) :: l₁).map Prod.snd)
        = List.foldl step (step db b) (l₁.map Prod.snd) := rfl
      _ = List.foldl step (step db b) ((m₁ ++ m₂).map Prod.snd) :=
          foldl_tagged l₁ (m₁ ++ m₂) hperm hl₁ hm₁₂ (step db b)
      _ = List.foldl step db ((m₁ ++ (k, b) :: m₂).map Prod.snd) := by
          rw [List.map_append, List.map_append, List.map_cons]
          exact (foldl_pull b (m₁.map Prod.snd) db (m₂.map Prod.snd)
            (fun x hx => by
              obtain ⟨p, hp', rfl⟩ := List.mem_map.mp hx
              exact hindep p hp')).symm

/-- A permutation of a feed that preserves the relative order of every two
interfering transactions (same client id, or same transaction id): a listing
of the tagged original feed in which interfering entries keep increasing
tags. -/
def DepRespectingPerm (F F' : List Transaction) : Prop :=
  ∃ l : List (ℕ × Transaction), l.Perm F.enum ∧ F' = l.map Prod.snd ∧
    l.Pairwise TagOrd

lemma le_fst_of_mem_enumFrom :
    ∀ (l : List Transaction) (n : ℕ) (p : ℕ × Transaction),
      p ∈ l.enumFrom n → n ≤ p.1
  | [], _, p, h => absurd h (List.not_mem_nil p)
  | _ :: xs, n, p, h => by
    rcases List.mem_cons.mp h with h | h
    · rw [h]
    · exact Nat.le_of_succ_le (le_fst_of_mem_enumFrom xs (n + 1) p h)

lemma enumFrom_pairwise_tagOrd :
    ∀ (l : List Transaction) (n : ℕ), (l.enumFrom n).Pairwise TagOrd
  | [], _ => List.Pairwise.nil
  | x :: xs, n => by
    refine List.Pairwise.cons (fun y hy _ => ?_) (enumFrom_pairwise_tagOrd xs (n + 1))
    exact Nat.lt_of_succ_le (le_fst_of_mem_enumFrom xs (n + 1) y hy)

lemma enum_pairwise_tagOrd (F : List Transaction) : F.enum.Pairwise TagOrd :=
  enumFrom_pairwise_tagOrd F 0

/-- Folds over feeds related by an interference-respecting permutation give
the same database. -/
lemma processFeed_eq_of_depRespectingPerm (F F' : List Transaction)
    (h : DepRespectingPerm F F') (db : Database) :
    processFeed db F = processFeed db F' := by
  obtain ⟨l, hperm, rfl, hpw⟩ := h
  have hfold := foldl_tagged F.enum l hperm.symm (enum_pairwise_tagOrd F)
    hpw db
  rw [List.enum_map_snd] at hfold
  exact hfold

/-- The original spec condition on a feed: every dispute-family transaction is
preceded by a Deposit/Withdrawal carrying the referenced id. -/
def causalOK (F : List Transaction) : Prop :=
  ∀ i : Fin F.length, isReferencing (F.get i).transaction_type = true →
    ∃ j : Fin F.length, (j : ℕ) < (i : ℕ) ∧
      isStoring (F.get j).transaction_type = true ∧
      (F.get j).txn_id = (F.get i).txn_id

instance (F : List Transaction) : Decidable (causalOK F) := by
  unfold causalOK
  infer_instance

/-! ## Pointwise step facts -/

/-- Dispute-family transactions never change the stored-transaction slot. -/
lemma applyUnlocked_snd_of_not_storing (cl : Client) (st : Option Transaction)
    (txn : Transaction) (h : isStoring txn.transaction_type = false) :
    (applyUnlocked cl st txn).2 = st := by
  obtain ⟨tt, cid, tid, amt⟩ := txn
  cases tt with
  | Deposit => exact absurd h (by simp [isStoring])
  | Withdrawal => exact absurd h (by simp [isStoring])
  | Dispute =>
      cases st with
      | none => rfl
      | some s =>
          obtain ⟨stt, scid, stid, samt⟩ := s
          cases samt with
          | none => rfl
          | some a =>
              simp only [applyUnlocked]
              split <;> rfl
  | Resolve =>
      cases st with
      | none => rfl
      | some s =>
          obtain ⟨stt, scid, stid, samt⟩ := s
          cases samt with
          | none => rfl
          | some a =>
              simp only [applyUnlocked]
              split
              · rfl
              · split <;> rfl
  | ChargeBack =>
      cases st with
      | none => rfl
      | some s =>
          obtain ⟨stt, scid, stid, samt⟩ := s
          cases samt with
          | none => rfl
          | some a =>
              simp only [applyUnlocked]
              split
              · rfl
              · split <;> rfl

/-- Only a Dispute can change a client's disputed set. -/
lemma applyUnlocked_disputed (cl : Client) (st : Option Transaction)
    (txn : Transaction) (h : txn.transaction_type ≠ .Dispute) :
    ((applyUnlocked cl st txn).1).disputed = cl.disputed := by
  obtain ⟨tt, cid, tid, amt⟩ := txn
  cases tt with
  | Dispute => exact absurd rfl h
  | Deposit =>
      cases amt with
      | none => rfl
      | some a => rfl
  | Withdrawal =>
      cases amt with
      | none => rfl
      | some a =>
          simp only [applyUnlocked]
          split <;> rfl
  | Resolve =>
      cases st with
      | none => rfl
      | some s =>
          obtain ⟨stt, scid, stid, samt⟩ := s
          cases samt with
          | none => rfl
          | some a =>
              simp only [applyUnlocked]
              split
              · rfl
              · split <;> rfl
  | ChargeBack =>
      cases st with
      | none => rfl
      | some s =>
          obtain ⟨stt, scid, stid, samt⟩ := s
          cases samt with
          | none => rfl
          | some a =>
              simp only [applyUnlocked]
              split
              · rfl
              · split <;> rfl

lemma step_transactions_pointwise (db : Database) (txn : Transaction)
    (h : isStoring txn.transaction_type = false) (t : ℕ) :
    (step db txn).transactions t = db.transactions t := by
  by_cases hts : t = txn.txn_id
  · subst hts
    rw [step_transactions_self]
    unfold stepRes
    split
    · rfl
    · exact applyUnlocked_snd_of_not_storing _ _ _ h
  · exact step_transactions_ne db txn hts

lemma step_disputed_pointwise (db : Database) (txn : Transaction)
    (h : txn.transaction_type ≠ .Dispute) (c : ℕ) :
    ((step db txn).clients c).disputed = (db.clients c).disputed := by
  by_cases hc : c = txn.client_id
  · subst hc
    rw [step_clients_self]
    unfold stepRes
    split
    · rfl
    · exact applyUnlocked_disputed _ _ _ h
  · rw [step_clients_ne db txn hc]

/-! ## Balance accounting -/

/-- The net amount an individual transaction adds to the client's
funds (`available + held`) under the acceptance rules of the processor:
an accepted deposit adds its amount, an accepted withdrawal removes its
amount, a successful chargeback removes the referenced amount, and
everything else (disputes, resolves and every rejection) contributes
nothing. -/
def acceptedDelta (cl : Client) (st : Option Transaction)
    (txn : Transaction) : ℚ :=
  if cl.locked then 0
  else
    match txn.transaction_type, st, txn.amount with
    | .Deposit, _, some a => a
    | .Withdrawal, _, some a => if cl.available - a < 0 then 0 else -a
    | .ChargeBack, some ⟨_, scid, stid, some a⟩, _ =>
        if scid = txn.client_id ∧ stid ∈ cl.disputed then -a else 0
    | _, _, _ => 0

/-- `acceptedDelta` read off the database, for an arbitrary client id. -/
def txnDelta (db : Database) (txn : Transaction) (c : ℕ) : ℚ :=
  if txn.client_id = c then
    acceptedDelta (db.clients c) (db.transactions txn.txn_id) txn
  else 0

/-- Net accepted amount credited to client `c` over a whole feed. -/
def netDelta : Database → List Transaction → ℕ → ℚ
  | _, [], _ => 0
  | db, txn :: rest, c => txnDelta db txn c + netDelta (step db txn) rest c

lemma applyUnlocked_total (cl : Client) (st : Option Transaction)
    (txn : Transaction) (hl : cl.locked = false) :
    ((applyUnlocked cl st txn).1).total = cl.total + acceptedDelta cl st txn := by
  obtain ⟨tt, cid, tid, amt⟩ := txn
  cases tt with
  | Deposit =>
      cases amt with
      | none =>
          rw [applyUnlocked_deposit_noamount cl st _ rfl rfl]
          simp [acceptedDelta, hl]
      | some a =>
          rw [applyUnlocked_deposit cl st _ a rfl rfl]
          simp only [acceptedDelta, hl, Bool.false_eq_true, if_false,
            Client.total]
          ring
  | Withdrawal =>
      cases amt with
      | none =>
          rw [applyUnlocked_withdrawal_noamount cl st _ rfl rfl]
          simp [acceptedDelta, hl]
      | some a =>
          rw [applyUnlocked_withdrawal cl st _ a rfl rfl]
          by_cases hw : cl.available - a < 0
          · simp [acceptedDelta, hl, hw, Client.total]
          · simp only [acceptedDelta, hl, Bool.false_eq_true, if_false,
              hw, Client.total]
            ring
  | Dispute =>
      have hdelta : acceptedDelta cl st ⟨.Dispute, cid, tid, amt⟩ = 0 := by
        simp only [acceptedDelta, hl, Bool.false_eq_true, if_false]
      rw [hdelta, add_zero]
      cases st with
      | none => rw [applyUnlocked_ref_notfound cl _ (by simp [isReferencing])]
      | some s =>
          obtain ⟨stt, scid, stid, samt⟩ := s
          cases samt with
          | none =>
              rw [applyUnlocked_ref_noamount cl _ ⟨stt, scid, stid, none⟩
                (by simp [isReferencing]) rfl]
          | some a =>
              by_cases hc : scid = cid
              · rw [applyUnlocked_dispute_accept cl _ ⟨stt, scid, stid, some a⟩
                  a rfl rfl hc]
                simp only [Client.total]
                ring
              · rw [applyUnlocked_ref_mismatch cl _ ⟨stt, scid, stid, some a⟩
                  a (by simp [isReferencing]) rfl hc]
  | Resolve =>
      have hdelta : acceptedDelta cl st ⟨.Resolve, cid, tid, amt⟩ = 0 := by
        simp only [acceptedDelta, hl, Bool.false_eq_true, if_false]
      rw [hdelta, add_zero]
      cases st with
      | none => rw [applyUnlocked_ref_notfound cl _ (by simp [isReferencing])]
      | some s =>
          obtain ⟨stt, scid, stid, samt⟩ := s
          cases samt with
          | none =>
              rw [applyUnlocked_ref_noamount cl _ ⟨stt, scid, stid, none⟩
                (by simp [isReferencing]) rfl]
          | some a =>
              by_cases hc : scid = cid
              · by_cases hd : stid ∈ cl.disputed
                · rw [applyUnlocked_resolve_disputed cl _
                    ⟨stt, scid, stid, some a⟩ a rfl rfl hc hd]
                  simp only [Client.total]
                  ring
                · rw [applyUnlocked_resolve_not_disputed cl _
                    ⟨stt, scid, stid, some a⟩ a rfl rfl hc hd]
              · rw [applyUnlocked_ref_mismatch cl _ ⟨stt, scid, stid, some a⟩
                  a (by simp [isReferencing]) rfl hc]
  | ChargeBack =>
      cases st with
      | none =>
          rw [applyUnlocked_ref_notfound cl _ (by simp [isReferencing])]
          simp [acceptedDelta, hl]
      | some s =>
          obtain ⟨stt, scid, stid, samt⟩ := s
          cases samt with
          | none =>
              rw [applyUnlocked_ref_noamount cl _ ⟨stt, scid, stid, none⟩
                (by simp [isReferencing]) rfl]
              simp [acceptedDelta, hl]
          | some a =>
              by_cases hc : scid = cid
              · by_cases hd : stid ∈ cl.disputed
                · rw [applyUnlocked_chargeback_disputed cl _
                    ⟨stt, scid, stid, some a⟩ a rfl rfl hc hd]
                  simp only [acceptedDelta, hl, Bool.false_eq_true, if_false]
                  rw [if_pos ⟨hc, hd⟩]
                  simp only [Client.total]
                  ring
                · rw [applyUnlocked_chargeback_not_disputed cl _
                    ⟨stt, scid, stid, some a⟩ a rfl rfl hc hd]
                  simp only [acceptedDelta, hl, Bool.false_eq_true, if_false]
                  rw [if_neg (fun hand => hd hand.2)]
                  ring
              · rw [applyUnlocked_ref_mismatch cl _ ⟨stt, scid, stid, some a⟩
                  a (by simp [isReferencing]) rfl hc]
                simp only [acceptedDelta, hl, Bool.false_eq_true, if_false]
                rw [if_neg (fun hand => hc hand.1)]
                ring

/-! ## Stored-transaction and dispute-set invariants -/

/-- All stored transactions are Deposits/Withdrawals, recorded under their
own id, with an amount present. -/
def StoredInv (db : Database) : Prop :=
  ∀ t s, db.transactions t = some s →
    isStoring s.transaction_type = true ∧ s.txn_id = t ∧ s.amount ≠ none

/-- Every disputed id of every client points at a stored Deposit/Withdrawal
of that same client. -/
def DisputedInv (db : Database) : Prop :=
  ∀ c t, t ∈ (db.clients c).disputed →
    ∃ s, db.transactions t = some s ∧ s.client_id = c ∧
      isStoring s.transaction_type = true

lemma storedInv_empty : StoredInv Database.empty := fun _ s h => by
  cases h

lemma disputedInv_empty : DisputedInv Database.empty := fun c t hmem =>
  absurd hmem (by simp [Database.empty, Client.default])

lemma invs_of_pointwise (db db' : Database)
    (htr : ∀ t, db'.transactions t = db.transactions t)
    (hdis : ∀ c, (db'.clients c).disputed = (db.clients c).disputed)
    (hS : StoredInv db) (hD : DisputedInv db) :
    StoredInv db' ∧ DisputedInv db' := by
  constructor
  · intro t s h
    rw [htr t] at h
    exact hS t s h
  · intro c t hmem
    rw [hdis c] at hmem
    obtain ⟨s, hs, hc, hk⟩ := hD c t hmem
    exact ⟨s, (htr t).trans hs, hc, hk⟩

/-- Both invariants are preserved by one step, provided a storing transaction
carries a fresh id. -/
lemma inv_step (db : Database) (txn : Transaction)
    (hS : StoredInv db) (hD : DisputedInv db)
    (hfresh : isStoring txn.transaction_type = true →
      db.transactions txn.txn_id = none) :
    StoredInv (step db txn) ∧ DisputedInv (step db txn) := by
  by_cases hlock : (db.clients txn.client_id).locked = true
  · rw [step_locked db txn hlock]
    exact ⟨hS, hD⟩
  have hl' : (db.clients txn.client_id).locked = false := by simpa using hlock
  cases htt : txn.transaction_type with
  | Resolve =>
      exact invs_of_pointwise db _
        (step_transactions_pointwise db txn (by rw [htt]; rfl))
        (step_disputed_pointwise db txn (by rw [htt]; simp)) hS hD
  | ChargeBack =>
      exact invs_of_pointwise db _
        (step_transactions_pointwise db txn (by rw [htt]; rfl))
        (step_disputed_pointwise db txn (by rw [htt]; simp)) hS hD
  | Deposit =>
      cases hamt : txn.amount with
      | none =>
          rw [step_noop db txn hl'
            (applyUnlocked_deposit_noamount _ _ _ htt hamt)]
          exact ⟨hS, hD⟩
      | some a =>
          have hres2 : (stepRes db txn).2 = some txn := by
            unfold stepRes
            rw [if_neg hlock, applyUnlocked_deposit _ _ _ a htt hamt]
          have hfr : db.transactions txn.txn_id = none :=
            hfresh (by rw [htt]; rfl)
          constructor
          · intro t s h
            by_cases hts : t = txn.txn_id
            · subst hts
              rw [step_transactions_self, hres2] at h
              injection h with h
              subst h
              exact ⟨by rw [htt]; rfl, rfl, by rw [hamt]; simp⟩
            · rw [step_transactions_ne db txn hts] at h
              exact hS t s h
          · intro c t hmem
            rw [step_disputed_pointwise db txn (by rw [htt]; simp) c] at hmem
            obtain ⟨s, hs, hc, hk⟩ := hD c t hmem
            refine ⟨s, ?_, hc, hk⟩
            by_cases hts : t = txn.txn_id
            · subst hts
              rw [hfr] at hs
              cases hs
            · rw [step_transactions_ne db txn hts]
              exact hs
  | Withdrawal =>
      cases hamt : txn.amount with
      | none =>
          rw [step_noop db txn hl'
            (applyUnlocked_withdrawal_noamount _ _ _ htt hamt)]
          exact ⟨hS, hD⟩
      | some a =>
          have hres2 : (stepRes db txn).2 = some txn := by
            unfold stepRes
            rw [if_neg hlock, applyUnlocked_withdrawal _ _ _ a htt hamt]
          have hfr : db.transactions txn.txn_id = none :=
            hfresh (by rw [htt]; rfl)
          constructor
          · intro t s h
            by_cases hts : t = txn.txn_id
            · subst hts
              rw [step_transactions_self, hres2] at h
              injection h with h
              subst h
              exact ⟨by rw [htt]; rfl, rfl, by rw [hamt]; simp⟩
            · rw [step_transactions_ne db txn hts] at h
              exact hS t s h
          · intro c t hmem
            rw [step_disputed_pointwise db txn (by rw [htt]; simp) c] at hmem
            obtain ⟨s, hs, hc, hk⟩ := hD c t hmem
            refine ⟨s, ?_, hc, hk⟩
            by_cases hts : t = txn.txn_id
            · subst hts
              rw [hfr] at hs
              cases hs
            · rw [step_transactions_ne db txn hts]
              exact hs
  | Dispute =>
      have htr : ∀ t, (step db txn).transactions t = db.transactions t :=
        step_transactions_pointwise db txn (by rw [htt]; rfl)
      cases hst : db.transactions txn.txn_id with
      | none =>
          rw [step_noop db txn hl'
            (by rw [hst]
                exact applyUnlocked_ref_notfound _ _ (by rw [htt]; rfl))]
          exact ⟨hS, hD⟩
      | some s =>
          cases hsa : s.amount with
          | none =>
              rw [step_noop db txn hl'
                (by rw [hst]
                    exact applyUnlocked_ref_noamount _ _ s
                      (by rw [htt]; rfl) hsa)]
              exact ⟨hS, hD⟩
          | some a =>
              by_cases heq : s.client_id = txn.client_id
              · have hcl : (step db txn).clients txn.client_id =
                    { db.clients txn.client_id with
                        available :=
                          (db.clients txn.client_id).available - a,
                        held := (db.clients txn.client_id).held + a,
                        disputed := insert s.txn_id
                          (db.clients txn.client_id).disputed } := by
                  rw [step_clients_self]
                  unfold stepRes
                  rw [if_neg hlock, hst,
                    applyUnlocked_dispute_accept _ _ s a htt hsa heq]
                constructor
                · intro t s' h
                  rw [htr t] at h
                  exact hS t s' h
                · intro c t hmem
                  by_cases hcc : c = txn.client_id
                  · subst hcc
                    rw [hcl] at hmem
                    rcases Finset.mem_insert.mp hmem with h1 | h2
                    · subst h1
                      obtain ⟨hstore, hkey, _⟩ := hS txn.txn_id s hst
                      refine ⟨s, ?_, heq, hstore⟩
                      rw [htr, hkey]
                      exact hst
                    · obtain ⟨s', hs', hc', hk'⟩ := hD txn.client_id t h2
                      exact ⟨s', (htr t).trans hs', hc', hk'⟩
                  · rw [step_clients_ne db txn hcc] at hmem
                    obtain ⟨s', hs', hc', hk'⟩ := hD c t hmem
                    exact ⟨s', (htr t).trans hs', hc', hk'⟩
              · rw [step_noop db txn hl'
                  (by rw [hst]
                      exact applyUnlocked_ref_mismatch _ _ s a
                        (by rw [htt]; rfl) hsa heq)]
                exact ⟨hS, hD⟩

/-- The txn ids of the Deposit/Withdrawal transactions of a feed, in order. -/
def storedIds (F : List Transaction) : List ℕ :=
  (F.filter fun t => isStoring t.transaction_type).map fun t => t.txn_id

lemma storedIds_cons_storing (txn : Transaction) (rest : List Transaction)
    (h : isStoring txn.transaction_type = true) :
    storedIds (txn :: rest) = txn.txn_id :: storedIds rest := by
  simp [storedIds, List.filter_cons, h]

lemma storedIds_cons_not (txn : Transaction) (rest : List Transaction)
    (h : isStoring txn.transaction_type = false) :
    storedIds (txn :: rest) = storedIds rest := by
  simp [storedIds, List.filter_cons, h]

/-- Folding a feed whose Deposit/Withdrawal ids are distinct and fresh
preserves both invariants. -/
lemma inv_processFeed :
    ∀ (F : List Transaction) (db : Database),
      StoredInv db → DisputedInv db → (storedIds F).Nodup →
      (∀ t ∈ storedIds F, db.transactions t = none) →
      StoredInv (processFeed db F) ∧ DisputedInv (processFeed db F)
  | [], _, hS, hD, _, _ => ⟨hS, hD⟩
  | txn :: rest, db, hS, hD, hnd, hfr => by
    by_cases hsto : isStoring txn.transaction_type = true
    · rw [storedIds_cons_storing txn rest hsto] at hnd hfr
      have hnd' := List.nodup_cons.mp hnd
      obtain ⟨hS', hD'⟩ := inv_step db txn hS hD
        (fun _ => hfr txn.txn_id (List.mem_cons_self _ _))
      refine inv_processFeed rest (step db txn) hS' hD' hnd'.2 ?_
      intro t ht
      have htne : t ≠ txn.txn_id := fun hh => hnd'.1 (hh ▸ ht)
      rw [step_transactions_ne db txn htne]
      exact hfr t (List.mem_cons_of_mem _ ht)
    · have hsto' : isStoring txn.transaction_type = false := by
        simpa using hsto
      rw [storedIds_cons_not txn rest hsto'] at hnd hfr
      obtain ⟨hS', hD'⟩ := inv_step db txn hS hD (fun h => absurd h hsto)
      refine inv_processFeed rest (step db txn) hS' hD' hnd ?_
      intro t ht
      rw [step_transactions_pointwise db txn hsto' t]
      exact hfr t ht

/-- One step changes a client's funds by exactly the accepted delta. -/
lemma total_step (db : Database) (txn : Transaction) (c : ℕ) :
    ((step db txn).clients c).total
      = (db.clients c).total + txnDelta db txn c := by
  unfold txnDelta
  by_cases hcc : txn.client_id = c
  · rw [if_pos hcc]
    subst hcc
    by_cases hlock : (db.clients txn.client_id).locked = true
    · rw [step_locked db txn hlock]
      simp [acceptedDelta, hlock]
    · have hl' : (db.clients txn.client_id).locked = false := by
        simpa using hlock
      rw [step_clients_self]
      unfold stepRes
      rw [if_neg hlock]
      exact applyUnlocked_total _ _ _ hl'
  · rw [if_neg hcc, step_clients_ne db txn fun h => hcc h.symm]
    ring

/-- Funds over a whole feed: initial funds plus the net accepted deltas. -/
lemma total_processFeed :
    ∀ (F : List Transaction) (db : Database) (c : ℕ),
      ((processFeed db F).clients c).total
        = (db.clients c).total + netDelta db F c
  | [], db, c => by simp [processFeed, netDelta]
  | txn :: rest, db, c => by
    show ((processFeed (step db txn) rest).clients c).total = _
    rw [total_processFeed rest (step db txn) c, total_step]
    show _ = (db.clients c).total
      + (txnDelta db txn c + netDelta (step db txn) rest c)
    ring

/-- Once a client is locked, no later transaction (for any client) changes
that client's state. -/
lemma clients_locked_frozen (c : ℕ) :
    ∀ (F : List Transaction) (db : Database),
      (db.clients c).locked = true →
      (processFeed db F).clients c = db.clients c
  | [], _, _ => rfl
  | txn :: rest, db, h => by
    have hstep : (step db txn).clients c = db.clients c := by
      by_cases hc : txn.client_id = c
      · subst hc
        rw [step_locked db txn h]
      · exact step_clients_ne db txn fun hcc => hc hcc.symm
    show (processFeed (step db txn) rest).clients c = db.clients c
    rw [clients_locked_frozen c rest (step db txn) (by rw [hstep]; exact h),
      hstep]

/-! ## Rejection taxonomy (for the error-handling claims) -/

/-- The source's branch conditions under which a transaction is rejected
(a diagnostic is printed and no funds are moved): locked client, missing
amount on a Deposit/Withdrawal, insufficient funds, or a dispute-family
transaction whose referent is unknown, has no amount, belongs to another
client, or (resolve/chargeback) is not currently disputed. -/
def rejectedB (db : Database) (txn : Transaction) : Bool :=
  if (db.clients txn.client_id).locked then true
  else
    match txn.transaction_type, db.transactions txn.txn_id, txn.amount with
    | .Deposit, _, some _ => false
    | .Withdrawal, _, some a =>
        decide ((db.clients txn.client_id).available - a < 0)
    | .Dispute, some ⟨_, scid, _, some _⟩, _ =>
        decide (scid ≠ txn.client_id)
    | .Resolve, some ⟨_, scid, stid, some _⟩, _ =>
        decide (scid ≠ txn.client_id)
          || decide (stid ∉ (db.clients txn.client_id).disputed)
    | .ChargeBack, some ⟨_, scid, stid, some _⟩, _ =>
        decide (scid ≠ txn.client_id)
          || decide (stid ∉ (db.clients txn.client_id).disputed)
    | _, _, _ => true

/-- The one rejection that still mutates the ledger in the source: a
withdrawal turned down for insufficient funds (it is recorded anyway). -/
def insufficientFundsB (db : Database) (txn : Transaction) : Bool :=
  if (db.clients txn.client_id).locked then false
  else
    match txn.transaction_type, txn.amount with
    | .Withdrawal, some a =>
        decide ((db.clients txn.client_id).available - a < 0)
    | _, _ => false

/-! ## Claim theorems -/

/-- C4: once a client is locked, every later transaction of that client is a
no-op on the whole database, and folding any further feed leaves the
client's state (available, held, locked, disputed) unchanged — in
particular `locked` stays true. -/
theorem locked_account_finality (db : Database) (c : ℕ)
    (h : (db.clients c).locked = true) :
    (∀ txn : Transaction, txn.client_id = c → step db txn = db) ∧
    (∀ F : List Transaction, (processFeed db F).clients c = db.clients c) := by
  constructor
  · intro txn hc
    exact step_locked db txn (by rw [hc]; exact h)
  · intro F
    exact clients_locked_frozen c F db h

/-- A concrete database with a locked client, for witnesses. -/
def dbLockedW : Database := ⟨fun _ => none, fun _ => ⟨0, 0, true, ∅⟩⟩

/-- Witness for C4 at a concrete locked database and deposit. -/
theorem locked_account_finality_witness :
    step dbLockedW ⟨.Deposit, 1, 9, some 4⟩ = dbLockedW :=
  (locked_account_finality dbLockedW 1 rfl).1 ⟨.Deposit, 1, 9, some 4⟩ rfl

/-- C5: a Withdrawal with amount `a` on an unlocked client is rejected when
`available - a < 0` (all client fields unchanged, account not locked) and
otherwise decreases available by exactly `a`; in both cases the transaction
is still stored under its txn id, and held and disputed are unaffected.
Other clients and other stored transactions are untouched. -/
theorem withdrawal_spec (db : Database) (txn : Transaction) (a : ℚ)
    (ht : txn.transaction_type = .Withdrawal) (ha : txn.amount = some a)
    (hl : (db.clients txn.client_id).locked = false) :
    (step db txn).transactions txn.txn_id = some txn ∧
    (∀ t, t ≠ txn.txn_id →
      (step db txn).transactions t = db.transactions t) ∧
    ((step db txn).clients txn.client_id =
      if (db.clients txn.client_id).available - a < 0 then
        db.clients txn.client_id
      else
        { db.clients txn.client_id with
            available := (db.clients txn.client_id).available - a }) ∧
    ((step db txn).clients txn.client_id).held
      = (db.clients txn.client_id).held ∧
    ((step db txn).clients txn.client_id).disputed
      = (db.clients txn.client_id).disputed ∧
    ((step db txn).clients txn.client_id).locked = false ∧
    (∀ c, c ≠ txn.client_id → (step db txn).clients c = db.clients c) := by
  have hlock : ¬ (db.clients txn.client_id).locked = true := by simp [hl]
  have happ := applyUnlocked_withdrawal (db.clients txn.client_id)
    (db.transactions txn.txn_id) txn a ht ha
  have hcl : (step db txn).clients txn.client_id
      = if (db.clients txn.client_id).available - a < 0 then
          db.clients txn.client_id
        else { db.clients txn.client_id with
            available := (db.clients txn.client_id).available - a } := by
    rw [step_clients_self]
    unfold stepRes
    rw [if_neg hlock, happ]
  have htr : (step db txn).transactions txn.txn_id = some txn := by
    rw [step_transactions_self]
    unfold stepRes
    rw [if_neg hlock, happ]
  refine ⟨htr, fun t htne => step_transactions_ne db txn htne, hcl, ?_, ?_, ?_,
    fun c hc => step_clients_ne db txn hc⟩
  · rw [hcl]
    split <;> rfl
  · rw [hcl]
    split <;> rfl
  · rw [hcl]
    split <;> exact hl

/-- Witness for C5: withdrawal of 3 from a fresh (empty) client is rejected
but still recorded. -/
theorem withdrawal_spec_witness :
    (step Database.empty ⟨.Withdrawal, 1, 7, some 3⟩).transactions 7
      = some ⟨.Withdrawal, 1, 7, some 3⟩ :=
  (withdrawal_spec Database.empty ⟨.Withdrawal, 1, 7, some 3⟩ 3 rfl rfl rfl).1

/-- C6: a Dispute on an unlocked client is rejected (whole database
unchanged) when the referenced id is absent, the stored transaction has no
amount, or it belongs to another client; otherwise the stored amount moves
from available to held and the stored transaction's id is inserted into the
disputing client's disputed set (the stored id equals the lookup id in every
database reachable from empty, by `StoredInv`), with every other client and
the stored transactions untouched. -/
theorem dispute_spec (db : Database) (txn : Transaction)
    (ht : txn.transaction_type = .Dispute)
    (hl : (db.clients txn.client_id).locked = false) :
    (db.transactions txn.txn_id = none → step db txn = db) ∧
    (∀ s, db.transactions txn.txn_id = some s → s.amount = none →
      step db txn = db) ∧
    (∀ s, db.transactions txn.txn_id = some s →
      s.client_id ≠ txn.client_id → step db txn = db) ∧
    (∀ s a, db.transactions txn.txn_id = some s → s.amount = some a →
      s.client_id = txn.client_id →
      (step db txn).clients txn.client_id =
        { db.clients txn.client_id with
            available := (db.clients txn.client_id).available - a,
            held := (db.clients txn.client_id).held + a,
            disputed := insert s.txn_id
              (db.clients txn.client_id).disputed } ∧
      (∀ c, c ≠ txn.client_id → (step db txn).clients c = db.clients c) ∧
      (∀ t, (step db txn).transactions t = db.transactions t)) := by
  have hlock : ¬ (db.clients txn.client_id).locked = true := by simp [hl]
  refine ⟨?_, ?_, ?_, ?_⟩
  · intro hnone
    exact step_noop db txn hl
      (by rw [hnone]
          exact applyUnlocked_ref_notfound _ _ (by rw [ht]; rfl))
  · intro s hst hsa
    exact step_noop db txn hl
      (by rw [hst]
          exact applyUnlocked_ref_noamount _ _ s (by rw [ht]; rfl) hsa)
  · intro s hst hne
    cases hsa : s.amount with
    | none =>
        exact step_noop db txn hl
          (by rw [hst]
              exact applyUnlocked_ref_noamount _ _ s (by rw [ht]; rfl) hsa)
    | some a =>
        exact step_noop db txn hl
          (by rw [hst]
              exact applyUnlocked_ref_mismatch _ _ s a
                (by rw [ht]; rfl) hsa hne)
  · intro s a hst hsa heq
    have hcl : (step db txn).clients txn.client_id =
        { db.clients txn.client_id with
            available := (db.clients txn.client_id).available - a,
            held := (db.clients txn.client_id).held + a,
            disputed := insert s.txn_id
              (db.clients txn.client_id).disputed } := by
      rw [step_clients_self]
      unfold stepRes
      rw [if_neg hlock, hst, applyUnlocked_dispute_accept _ _ s a ht hsa heq]
    exact ⟨hcl, fun c hc => step_clients_ne db txn hc,
      step_transactions_pointwise db txn (by rw [ht]; rfl)⟩

/-- A database holding one recorded deposit of 5 by client 1, for
witnesses. -/
def dbDep1 : Database := step Database.empty ⟨.Deposit, 1, 1, some 5⟩

/-- Witness for C6: disputing the recorded deposit moves its amount from
available to held and marks it disputed. -/
theorem dispute_spec_witness :
    (step dbDep1 ⟨.Dispute, 1, 1, none⟩).clients 1 =
      { dbDep1.clients 1 with
          available := (dbDep1.clients 1).available - 5,
          held := (dbDep1.clients 1).held + 5,
          disputed := insert 1 (dbDep1.clients 1).disputed } :=
  ((dispute_spec dbDep1 ⟨.Dispute, 1, 1, none⟩ rfl rfl).2.2.2
    ⟨.Deposit, 1, 1, some 5⟩ 5 rfl rfl rfl).1

/-- The feed of the C1 counterexample: deposit 5 (txn 1), dispute txn 1,
resolve txn 1, all by client 1. -/
def feedResolveW : List Transaction :=
  [⟨.Deposit, 1, 1, some 5⟩, ⟨.Dispute, 1, 1, none⟩, ⟨.Resolve, 1, 1, none⟩]

/-- C1 counterexample: after deposit(1,1,5), dispute(1,1), resolve(1,1) the
resolve was accepted (funds moved back: available 5, held 0), yet txn 1 is
still in client 1's disputed set — the source never removes it, contradicting
the claim that a successful resolve removes the id. -/
theorem resolve_keeps_disputed_counterexample :
    ((processFeed Database.empty feedResolveW).clients 1).available = 5 ∧
    ((processFeed Database.empty feedResolveW).clients 1).held = 0 ∧
    1 ∈ ((processFeed Database.empty feedResolveW).clients 1).disputed := by
  refine ⟨?_, ?_, ?_⟩ <;>
    norm_num [feedResolveW, processFeed, step, handle_transaction,
      applyUnlocked, Database.empty, Client.default]

/-- C1 amended: for a Resolve on an unlocked client whose referenced txn
exists with an amount and belongs to the client: if the id is currently
disputed, the amount is added back to available and subtracted from held,
while the id is LEFT IN the disputed set (the source does not remove it);
if the id is not disputed, the resolve is rejected with no state change. -/
theorem resolve_spec (db : Database) (txn s : Transaction) (a : ℚ)
    (ht : txn.transaction_type = .Resolve)
    (hl : (db.clients txn.client_id).locked = false)
    (hst : db.transactions txn.txn_id = some s)
    (hsa : s.amount = some a) (heq : s.client_id = txn.client_id) :
    (s.txn_id ∈ (db.clients txn.client_id).disputed →
      (step db txn).clients txn.client_id =
        { db.clients txn.client_id with
            available := (db.clients txn.client_id).available + a,
            held := (db.clients txn.client_id).held - a } ∧
      s.txn_id ∈ ((step db txn).clients txn.client_id).disputed ∧
      (∀ c, c ≠ txn.client_id → (step db txn).clients c = db.clients c) ∧
      (∀ t, (step db txn).transactions t = db.transactions t)) ∧
    (s.txn_id ∉ (db.clients txn.client_id).disputed → step db txn = db) := by
  have hlock : ¬ (db.clients txn.client_id).locked = true := by simp [hl]
  constructor
  · intro hd
    have hcl : (step db txn).clients txn.client_id =
        { db.clients txn.client_id with
            available := (db.clients txn.client_id).available + a,
            held := (db.clients txn.client_id).held - a } := by
      rw [step_clients_self]
      unfold stepRes
      rw [if_neg hlock, hst,
        applyUnlocked_resolve_disputed _ _ s a ht hsa heq hd]
    refine ⟨hcl, ?_, fun c hc => step_clients_ne db txn hc,
      step_transactions_pointwise db txn (by rw [ht]; rfl)⟩
    rw [hcl]
    exact hd
  · intro hd
    exact step_noop db txn hl
      (by rw [hst]
          exact applyUnlocked_resolve_not_disputed _ _ s a ht hsa heq hd)

/-- The database holding client 1's deposit of 5 (txn 1) under dispute, for
witnesses. -/
def dbDisputed1 : Database :=
  processFeed Database.empty
    [⟨.Deposit, 1, 1, some 5⟩, ⟨.Dispute, 1, 1, none⟩]

/-- Witness for the amended C1: resolving the disputed deposit moves funds
back and leaves txn 1 in the disputed set. -/
theorem resolve_spec_witness :
    (step dbDisputed1 ⟨.Resolve, 1, 1, none⟩).clients 1 =
      { dbDisputed1.clients 1 with
          available := (dbDisputed1.clients 1).available + 5,
          held := (dbDisputed1.clients 1).held - 5 } ∧
    1 ∈ ((step dbDisputed1 ⟨.Resolve, 1, 1, none⟩).clients 1).disputed := by
  have h := (resolve_spec dbDisputed1 ⟨.Resolve, 1, 1, none⟩
    ⟨.Deposit, 1, 1, some 5⟩ 5 rfl rfl rfl rfl rfl).1 (by decide)
  exact ⟨h.1, h.2.1⟩

/-- C7: a ChargeBack on an unlocked client whose referenced txn exists with
an amount, belongs to the client, and is currently disputed, subtracts the
amount from held, leaves available unchanged, locks the account, leaves the
id in the disputed set, stores nothing, and freezes the client against every
further feed. -/
theorem chargeback_spec (db : Database) (txn s : Transaction) (a : ℚ)
    (ht : txn.transaction_type = .ChargeBack)
    (hl : (db.clients txn.client_id).locked = false)
    (hst : db.transactions txn.txn_id = some s)
    (hsa : s.amount = some a) (heq : s.client_id = txn.client_id)
    (hd : s.txn_id ∈ (db.clients txn.client_id).disputed) :
    (step db txn).clients txn.client_id =
      { db.clients txn.client_id with
          held := (db.clients txn.client_id).held - a,
          locked := true } ∧
    ((step db txn).clients txn.client_id).available
      = (db.clients txn.client_id).available ∧
    s.txn_id ∈ ((step db txn).clients txn.client_id).disputed ∧
    (∀ t, (step db txn).transactions t = db.transactions t) ∧
    (∀ F : List Transaction,
      (processFeed (step db txn) F).clients txn.client_id
        = (step db txn).clients txn.client_id) := by
  have hlock : ¬ (db.clients txn.client_id).locked = true := by simp [hl]
  have hcl : (step db txn).clients txn.client_id =
      { db.clients txn.client_id with
          held := (db.clients txn.client_id).held - a,
          locked := true } := by
    rw [step_clients_self]
    unfold stepRes
    rw [if_neg hlock, hst,
      applyUnlocked_chargeback_disputed _ _ s a ht hsa heq hd]
  refine ⟨hcl, by rw [hcl], by rw [hcl]; exact hd,
    step_transactions_pointwise db txn (by rw [ht]; rfl), ?_⟩
  intro F
  exact clients_locked_frozen txn.client_id F (step db txn) (by rw [hcl])

/-- Witness for C7: charging back the disputed deposit locks client 1. -/
theorem chargeback_spec_witness :
    (step dbDisputed1 ⟨.ChargeBack, 1, 1, none⟩).clients 1 =
      { dbDisputed1.clients 1 with
          held := (dbDisputed1.clients 1).held - 5,
          locked := true } :=
  (chargeback_spec dbDisputed1 ⟨.ChargeBack, 1, 1, none⟩
    ⟨.Deposit, 1, 1, some 5⟩ 5 rfl rfl rfl rfl rfl (by decide)).1

/-- C9: a Dispute whose referenced id is already in the client's disputed
set is not rejected — the amount moves from available to held once more,
while the disputed set stays the same. -/
theorem dispute_redispute (db : Database) (txn s : Transaction) (a : ℚ)
    (ht : txn.transaction_type = .Dispute)
    (hl : (db.clients txn.client_id).locked = false)
    (hst : db.transactions txn.txn_id = some s)
    (hsa : s.amount = some a) (heq : s.client_id = txn.client_id)
    (hd : s.txn_id ∈ (db.clients txn.client_id).disputed) :
    ((step db txn).clients txn.client_id).available
      = (db.clients txn.client_id).available - a ∧
    ((step db txn).clients txn.client_id).held
      = (db.clients txn.client_id).held + a ∧
    ((step db txn).clients txn.client_id).disputed
      = (db.clients txn.client_id).disputed := by
  have hlock : ¬ (db.clients txn.client_id).locked = true := by simp [hl]
  have hcl : (step db txn).clients txn.client_id =
      { db.clients txn.client_id with
          available := (db.clients txn.client_id).available - a,
          held := (db.clients txn.client_id).held + a,
          disputed := insert s.txn_id
            (db.clients txn.client_id).disputed } := by
    rw [step_clients_self]
    unfold stepRes
    rw [if_neg hlock, hst, applyUnlocked_dispute_accept _ _ s a ht hsa heq]
  refine ⟨by rw [hcl], by rw [hcl], ?_⟩
  rw [hcl]
  exact Finset.insert_eq_self.mpr hd

/-- Witness for C9: disputing txn 1 a second time doubles the hold. -/
theorem dispute_redispute_witness :
    ((step dbDisputed1 ⟨.Dispute, 1, 1, none⟩).clients 1).held
      = (dbDisputed1.clients 1).held + 5 ∧
    ((step dbDisputed1 ⟨.Dispute, 1, 1, none⟩).clients 1).disputed
      = (dbDisputed1.clients 1).disputed := by
  have h := dispute_redispute dbDisputed1 ⟨.Dispute, 1, 1, none⟩
    ⟨.Deposit, 1, 1, some 5⟩ 5 rfl rfl rfl rfl rfl (by decide)
  exact ⟨h.2.1, h.2.2⟩

/-- C8 counterexample: withdrawal(1,1,3) against the empty ledger is a
business-rule rejection (insufficient funds), leaves the client untouched,
yet the ledger is NOT left unchanged: the rejected withdrawal is still
recorded under its txn id. -/
theorem rejection_records_withdrawal_counterexample :
    rejectedB Database.empty ⟨.Withdrawal, 1, 1, some 3⟩ = true ∧
    ((step Database.empty ⟨.Withdrawal, 1, 1, some 3⟩).clients 1).available
      = 0 ∧
    (step Database.empty ⟨.Withdrawal, 1, 1, some 3⟩).transactions 1
      = some ⟨.Withdrawal, 1, 1, some 3⟩ := by
  refine ⟨?_, ?_, ?_⟩ <;>
    norm_num [rejectedB, step, handle_transaction, applyUnlocked,
      Database.empty, Client.default]

/-- C8 amended: every business-rule rejection is non-fatal —
`handle_transaction` returns success, every client's state is unchanged, and
the engine continues with the next transaction of the feed; every rejection
except an insufficient-funds withdrawal also leaves the stored transactions
unchanged, while a withdrawal rejected for insufficient funds is still
recorded under its txn id. -/
theorem rejection_nonfatal (db : Database) (txn : Transaction)
    (h : rejectedB db txn = true) :
    handle_transaction db txn = .ok (step db txn) ∧
    (∀ c, (step db txn).clients c = db.clients c) ∧
    (insufficientFundsB db txn = false →
      ∀ t, (step db txn).transactions t = db.transactions t) ∧
    (insufficientFundsB db txn = true →
      ∀ t, (step db txn).transactions t
        = if t = txn.txn_id then some txn else db.transactions t) ∧
    (∀ rest, run_engine db (txn :: rest) = run_engine (step db txn) rest) := by
  have hcont : ∀ rest : List Transaction,
      run_engine db (txn :: rest) = run_engine (step db txn) rest := by
    intro rest
    simp only [run_engine, handle_transaction_ok]
  refine ⟨handle_transaction_ok db txn, ?_⟩
  by_cases hlock : (db.clients txn.client_id).locked = true
  · have hins : insufficientFundsB db txn = false := by
      unfold insufficientFundsB
      rw [if_pos hlock]
    have hstep := step_locked db txn hlock
    exact ⟨fun c => by rw [hstep], fun _ t => by rw [hstep],
      fun h' => absurd h' (by simp [hins]), hcont⟩
  · have hl : (db.clients txn.client_id).locked = false := by simpa using hlock
    have hinsno : txn.transaction_type ≠ .Withdrawal →
        insufficientFundsB db txn = false := by
      intro hne
      unfold insufficientFundsB
      rw [if_neg hlock]
      cases htt : txn.transaction_type with
      | Withdrawal => exact absurd htt hne
      | Deposit => rfl
      | Dispute => rfl
      | Resolve => rfl
      | ChargeBack => rfl
    have noop_case : step db txn = db → insufficientFundsB db txn = false →
        (∀ c, (step db txn).clients c = db.clients c) ∧
        (insufficientFundsB db txn = false →
          ∀ t, (step db txn).transactions t = db.transactions t) ∧
        (insufficientFundsB db txn = true →
          ∀ t, (step db txn).transactions t
            = if t = txn.txn_id then some txn else db.transactions t) ∧
        (∀ rest, run_engine db (txn :: rest)
          = run_engine (step db txn) rest) := by
      intro hstep hins
      exact ⟨fun c => by rw [hstep], fun _ t => by rw [hstep],
        fun h' => absurd h' (by simp [hins]), hcont⟩
    unfold rejectedB at h
    rw [if_neg hlock] at h
    cases htt : txn.transaction_type with
    | Deposit =>
        cases hamt : txn.amount with
        | some a =>
            rw [htt, hamt] at h
            simp at h
        | none =>
            refine noop_case (step_noop db txn hl
              (applyUnlocked_deposit_noamount _ _ _ htt hamt)) ?_
            unfold insufficientFundsB
            rw [if_neg hlock, htt]
    | Withdrawal =>
        cases hamt : txn.amount with
        | none =>
            refine noop_case (step_noop db txn hl
              (applyUnlocked_withdrawal_noamount _ _ _ htt hamt)) ?_
            unfold insufficientFundsB
            rw [if_neg hlock, htt, hamt]
        | some a =>
            rw [htt, hamt] at h
            simp only [decide_eq_true_eq] at h
            have hins : insufficientFundsB db txn = true := by
              unfold insufficientFundsB
              rw [if_neg hlock, htt, hamt]
              simp [h]
            have happ := applyUnlocked_withdrawal (db.clients txn.client_id)
              (db.transactions txn.txn_id) txn a htt hamt
            have hcl : ∀ c, (step db txn).clients c = db.clients c := by
              intro c
              by_cases hc : c = txn.client_id
              · subst hc
                rw [step_clients_self]
                unfold stepRes
                rw [if_neg hlock, happ]
                simp [h]
              · exact step_clients_ne db txn hc
            have htrr : ∀ t, (step db txn).transactions t
                = if t = txn.txn_id then some txn
                  else db.transactions t := by
              intro t
              by_cases hts : t = txn.txn_id
              · subst hts
                rw [step_transactions_self, if_pos rfl]
                unfold stepRes
                rw [if_neg hlock, happ]
              · rw [step_transactions_ne db txn hts, if_neg hts]
            exact ⟨hcl, fun h' => absurd h' (by simp [hins]),
              fun _ => htrr, hcont⟩
    | Dispute =>
        cases hst : db.transactions txn.txn_id with
        | none =>
            refine noop_case (step_noop db txn hl
              (by rw [hst]
                  exact applyUnlocked_ref_notfound _ _ (by rw [htt]; rfl)))
              (hinsno (by rw [htt]; simp))
        | some s =>
            obtain ⟨stt, scid, stid, samt⟩ := s
            cases samt with
            | none =>
                refine noop_case (step_noop db txn hl
                  (by rw [hst]
                      exact applyUnlocked_ref_noamount _ _ _
                        (by rw [htt]; rfl) rfl))
                  (hinsno (by rw [htt]; simp))
            | some a =>
                rw [htt, hst] at h
                simp only [decide_eq_true_eq] at h
                refine noop_case (step_noop db txn hl
                  (by rw [hst]
                      exact applyUnlocked_ref_mismatch _ _ _ a
                        (by rw [htt]; rfl) rfl h))
                  (hinsno (by rw [htt]; simp))
    | Resolve =>
        cases hst : db.transactions txn.txn_id with
        | none =>
            refine noop_case (step_noop db txn hl
              (by rw [hst]
                  exact applyUnlocked_ref_notfound _ _ (by rw [htt]; rfl)))
              (hinsno (by rw [htt]; simp))
        | some s =>
            obtain ⟨stt, scid, stid, samt⟩ := s
            cases samt with
            | none =>
                refine noop_case (step_noop db txn hl
                  (by rw [hst]
                      exact applyUnlocked_ref_noamount _ _ _
                        (by rw [htt]; rfl) rfl))
                  (hinsno (by rw [htt]; simp))
            | some a =>
                rw [htt, hst] at h
                simp only [Bool.or_eq_true, decide_eq_true_eq] at h
                by_cases heq : scid = txn.client_id
                · have hd : stid ∉ (db.clients txn.client_id).disputed := by
                    rcases h with h | h
                    · exact absurd heq h
                    · exact h
                  refine noop_case (step_noop db txn hl
                    (by rw [hst]
                        exact applyUnlocked_resolve_not_disputed _ _ _ a
                          htt rfl heq hd))
                    (hinsno (by rw [htt]; simp))
                · refine noop_case (step_noop db txn hl
                    (by rw [hst]
                        exact applyUnlocked_ref_mismatch _ _ _ a
                          (by rw [htt]; rfl) rfl heq))
                    (hinsno (by rw [htt]; simp))
    | ChargeBack =>
        cases hst : db.transactions txn.txn_id with
        | none =>
            refine noop_case (step_noop db txn hl
              (by rw [hst]
                  exact applyUnlocked_ref_notfound _ _ (by rw [htt]; rfl)))
              (hinsno (by rw [htt]; simp))
        | some s =>
            obtain ⟨stt, scid, stid, samt⟩ := s
            cases samt with
            | none =>
                refine noop_case (step_noop db txn hl
                  (by rw [hst]
                      exact applyUnlocked_ref_noamount _ _ _
                        (by rw [htt]; rfl) rfl))
                  (hinsno (by rw [htt]; simp))
            | some a =>
                rw [htt, hst] at h
                simp only [Bool.or_eq_true, decide_eq_true_eq] at h
                by_cases heq : scid = txn.client_id
                · have hd : stid ∉ (db.clients txn.client_id).disputed := by
                    rcases h with h | h
                    · exact absurd heq h
                    · exact h
                  refine noop_case (step_noop db txn hl
                    (by rw [hst]
                        exact applyUnlocked_chargeback_not_disputed _ _ _ a
                          htt rfl heq hd))
                    (hinsno (by rw [htt]; simp))
                · refine noop_case (step_noop db txn hl
                    (by rw [hst]
                        exact applyUnlocked_ref_mismatch _ _ _ a
                          (by rw [htt]; rfl) rfl heq))
                    (hinsno (by rw [htt]; simp))

/-- Witness for the amended C8 at a locked client's deposit. -/
theorem rejection_nonfatal_witness :
    handle_transaction dbLockedW ⟨.Deposit, 2, 3, some 1⟩
      = .ok (step dbLockedW ⟨.Deposit, 2, 3, some 1⟩) ∧
    (step dbLockedW ⟨.Deposit, 2, 3, some 1⟩).clients 2
      = dbLockedW.clients 2 :=
  have h := rejection_nonfatal dbLockedW ⟨.Deposit, 2, 3, some 1⟩ rfl
  ⟨h.1, h.2.1 2⟩

/-- First feed of the C2 counterexample: deposit 5 then withdraw 3. -/
def feedOrderA : List Transaction :=
  [⟨.Deposit, 1, 1, some 5⟩, ⟨.Withdrawal, 1, 2, some 3⟩]

/-- Second feed of the C2 counterexample: the same two transactions with the
withdrawal first. -/
def feedOrderB : List Transaction :=
  [⟨.Withdrawal, 1, 2, some 3⟩, ⟨.Deposit, 1, 1, some 5⟩]

/-- C2 counterexample: `feedOrderB` is a permutation of `feedOrderA` that
(vacuously) preserves every referencing transaction's referent before it —
both feeds are causally valid — yet the final states differ: in A the
withdrawal succeeds (available 2), in B it is rejected for insufficient
funds (available 5). -/
theorem order_independence_counterexample :
    feedOrderA.Perm feedOrderB ∧ causalOK feedOrderA ∧ causalOK feedOrderB ∧
    ((processFeed Database.empty feedOrderA).clients 1).available
      ≠ ((processFeed Database.empty feedOrderB).clients 1).available := by
  refine ⟨List.Perm.swap _ _ _, by decide, by decide, ?_⟩
  have hA : ((processFeed Database.empty feedOrderA).clients 1).available
      = 2 := by
    norm_num [feedOrderA, processFeed, step, handle_transaction,
      applyUnlocked, Database.empty, Client.default]
  have hB : ((processFeed Database.empty feedOrderB).clients 1).available
      = 5 := by
    norm_num [feedOrderB, processFeed, step, handle_transaction,
      applyUnlocked, Database.empty, Client.default]
  rw [hA, hB]
  norm_num

/-- C2 amended: processing two feeds related by a permutation that preserves
the relative order of every two interfering transactions — two transactions
sharing a `client_id` or sharing a `txn_id` (which includes every
referencing transaction and its referent) — yields identical final client
states for every client. -/
theorem order_independence_dep_respecting (F F' : List Transaction)
    (h : DepRespectingPerm F F') (c : ℕ) :
    (processFeed Database.empty F).clients c
      = (processFeed Database.empty F').clients c := by
  rw [processFeed_eq_of_depRespectingPerm F F' h Database.empty]

/-- Witness for the amended C2: two different clients' deposits swapped. -/
theorem order_independence_dep_respecting_witness :
    (processFeed Database.empty
        [⟨.Deposit, 1, 1, some 5⟩, ⟨.Deposit, 2, 2, some 7⟩]).clients 1
      = (processFeed Database.empty
        [⟨.Deposit, 2, 2, some 7⟩, ⟨.Deposit, 1, 1, some 5⟩]).clients 1 :=
  order_independence_dep_respecting
    [⟨.Deposit, 1, 1, some 5⟩, ⟨.Deposit, 2, 2, some 7⟩]
    [⟨.Deposit, 2, 2, some 7⟩, ⟨.Deposit, 1, 1, some 5⟩]
    ⟨[(1, ⟨.Deposit, 2, 2, some 7⟩), (0, ⟨.Deposit, 1, 1, some 5⟩)],
      by have henum :
            ([⟨.Deposit, 1, 1, some 5⟩,
              ⟨.Deposit, 2, 2, some 7⟩] : List Transaction).enum
            = [(0, ⟨.Deposit, 1, 1, some 5⟩), (1, ⟨.Deposit, 2, 2, some 7⟩)] :=
          rfl
         rw [henum]
         exact List.Perm.swap _ _ _,
      rfl, by decide⟩ 1

/-- The feed of the C3 counterexample: client 1 deposits 5 as txn 1 and
disputes it; then client 2 deposits 7 reusing txn id 1, silently overwriting
the stored transaction. -/
def feedReuse : List Transaction :=
  [⟨.Deposit, 1, 1, some 5⟩, ⟨.Dispute, 1, 1, none⟩, ⟨.Deposit, 2, 1, some 7⟩]

/-- C3 counterexample: after `feedReuse`, txn id 1 is in client 1's disputed
set but the transaction stored under id 1 belongs to client 2, so the
claim's disputed-ownership invariant fails without a txn-id-uniqueness
assumption. -/
theorem disputed_ownership_counterexample :
    1 ∈ ((processFeed Database.empty feedReuse).clients 1).disputed ∧
    (processFeed Database.empty feedReuse).transactions 1
      = some ⟨.Deposit, 2, 1, some 7⟩ ∧
    ¬ DisputedInv (processFeed Database.empty feedReuse) := by
  have h1 : 1 ∈ ((processFeed Database.empty feedReuse).clients 1).disputed :=
    by decide
  have h2 : (processFeed Database.empty feedReuse).transactions 1
      = some ⟨.Deposit, 2, 1, some 7⟩ := rfl
  refine ⟨h1, h2, fun hD => ?_⟩
  obtain ⟨s, hs, hc, _⟩ := hD 1 1 h1
  rw [h2] at hs
  injection hs with hs
  rw [← hs] at hc
  exact absurd hc (by decide)

/-- C3 amended: for any feed whose Deposit/Withdrawal transactions carry
pairwise distinct txn ids (the uniqueness the spec assumes of the input),
after processing any prefix — a prefix of a feed being itself a feed, the
feed is universally quantified — every client's `available + held` equals
the net of its accepted deposits minus accepted withdrawals minus the
amounts removed by successful chargebacks (`netDelta`), and every disputed
id of every client points at a stored Deposit/Withdrawal of that client.
The balance conjunct holds even without the uniqueness hypothesis. -/
theorem balance_and_disputed_inv (F : List Transaction)
    (h : (storedIds F).Nodup) :
    (∀ c, ((processFeed Database.empty F).clients c).total
      = netDelta Database.empty F c) ∧
    DisputedInv (processFeed Database.empty F) := by
  constructor
  · intro c
    have htot := total_processFeed F Database.empty c
    simpa [Database.empty, Client.default, Client.total] using htot
  · exact (inv_processFeed F Database.empty storedInv_empty disputedInv_empty
      h (fun t _ => rfl)).2

/-- Witness for the amended C3 on a deposit-then-dispute feed. -/
theorem balance_and_disputed_inv_witness :
    DisputedInv (processFeed Database.empty
      [⟨.Deposit, 1, 1, some 5⟩, ⟨.Dispute, 1, 1, none⟩]) :=
  (balance_and_disputed_inv
    [⟨.Deposit, 1, 1, some 5⟩, ⟨.Dispute, 1, 1, none⟩] (by decide)).2

/-- The feed of C10: deposit 5, withdraw all 5, then dispute the deposit. -/
def feedOverdraw : List Transaction :=
  [⟨.Deposit, 1, 1, some 5⟩, ⟨.Withdrawal, 1, 2, some 5⟩,
   ⟨.Dispute, 1, 1, none⟩]

/-- C10: a successful dispute does not require available funds to cover the
disputed amount: after deposit 5, withdrawal 5, dispute of the deposit, the
dispute is accepted (txn 1 disputed, held 5) and available is −5, so
non-negativity of `available` is not an invariant of the processor. -/
theorem dispute_negative_available :
    1 ∈ ((processFeed Database.empty feedOverdraw).clients 1).disputed ∧
    ((processFeed Database.empty feedOverdraw).clients 1).held = 5 ∧
    ((processFeed Database.empty feedOverdraw).clients 1).available = -5 ∧
    ((processFeed Database.empty feedOverdraw).clients 1).available < 0 := by
  refine ⟨?_, ?_, ?_, ?_⟩ <;>
    norm_num [feedOverdraw, processFeed, step, handle_transaction,
      applyUnlocked, Database.empty, Client.default]
